/-
Verification of the Edge-TTS synthesis service of the EDINAI-F repository
(src/backend/app/services/tts_service.py).

The Python service is shallowly embedded below:
  * strings are `List Char` (the chunking pipeline) or `String` (identifiers);
  * the regular expression split `re.split(r'(?<=[.!?])\s+(?=[A-Z])', text)`
    of `_split_into_sentences` is embedded as a character scan (`sentSplitGo`);
    Python's `\s` and `str.strip()` also match some non-ASCII Unicode
    whitespace, which is abstracted here to the six ASCII whitespace
    characters (`isPySpace`);
  * the remote edge-tts stream is abstracted as an oracle giving, per chunk
    and per attempt, the list of stream events yielded before the stream
    either finishes or raises;
  * the filesystem is a pair of a directory list and an association list of
    file contents; clock time for backoff sleeps is recorded as events.
-/
import Mathlib

namespace EdinaiTTS

/-! ## Constants of `EdgeTTSService` (tts_service.py lines 17-20) -/

def CHUNK_CHAR_LIMIT : Nat := 2000

def MAX_RETRIES : Nat := 3

def INITIAL_RETRY_DELAY : Nat := 1

def MAX_RETRY_DELAY : Nat := 10

/-! ## Character predicates

`isPySpace` models Python's `\s` / `str.strip()` whitespace restricted to
ASCII; `isUpperAZ` models the character class `[A-Z]`; `isSentEnd` models
`[.!?]` (the lookbehind class of the sentence-splitting regex). -/

def isPySpace (c : Char) : Bool :=
  c == ' ' || c == '\t' || c == '\n' || c == '\r' || c == '\x0b' || c == '\x0c'

def isUpperAZ (c : Char) : Bool :=
  'A'.toNat ≤ c.toNat && c.toNat ≤ 'Z'.toNat

def isSentEnd (c : Char) : Bool :=
  c == '.' || c == '!' || c == '?'

/-- Python `str.strip()` (ASCII whitespace): drop whitespace from both ends. -/
def pyStrip (cs : List Char) : List Char :=
  ((cs.dropWhile isPySpace).reverse.dropWhile isPySpace).reverse

/-! ## `_split_into_sentences` (lines 236-258)

`sentSplitGo acc cs` scans `cs` with `acc` holding the reversed current
piece.  A split happens after a `[.!?]` character that is followed by a
nonempty whitespace run and then an uppercase ASCII letter, exactly as the
regex `(?<=[.!?])\s+(?=[A-Z])` used with `re.split`: the whitespace run is
consumed (it appears in no piece). -/

theorem lengthDropWhileLe {α : Type} (p : α → Bool) (l : List α) :
    (l.dropWhile p).length ≤ l.length := by
  induction l with
  | nil => simp [List.dropWhile]
  | cons a t ih =>
    rw [List.dropWhile_cons]
    split
    · exact Nat.le_succ_of_le ih
    · simp

def sentSplitGo (acc : List Char) (cs : List Char) : List (List Char) :=
  match cs with
  | [] => [acc.reverse]
  | c :: rest =>
    if isSentEnd c then
      let run := rest.takeWhile isPySpace
      let rest2 := rest.dropWhile isPySpace
      if run.length > 0 &&
          (match rest2.head? with | some d => isUpperAZ d | none => false) then
        (acc.reverse ++ [c]) :: sentSplitGo [] rest2
      else
        sentSplitGo (c :: acc) rest
    else
      sentSplitGo (c :: acc) rest
termination_by cs.length
decreasing_by
  · simp only [List.length_cons]
    exact Nat.lt_succ_of_le (lengthDropWhileLe isPySpace rest)
  · simp
  · simp

/-- The raw `re.split` result on nonempty text. -/
def sentSplit (cs : List Char) : List (List Char) :=
  sentSplitGo [] cs

/-- Python `sentences[i].endswith('.')`. -/
def endsWithDot (cs : List Char) : Bool :=
  match cs.getLast? with
  | some c => c == '.'
  | none => false

/-- The abbreviation-merging loop of `_split_into_sentences` (lines 245-258):
a piece shorter than 10 characters ending in `.` is merged with the next
piece (joined by a single space), and the scan continues after the pair. -/
def mergeShort : List (List Char) → List (List Char)
  | [] => []
  | [s] => [s]
  | s1 :: s2 :: rest =>
    if s1.length < 10 && endsWithDot s1 then
      (s1 ++ ' ' :: s2) :: mergeShort rest
    else
      s1 :: mergeShort (s2 :: rest)

/-- The function `_split_into_sentences(text)`: `[]` on empty text, otherwise the regex
split post-processed by the abbreviation merge. -/
def splitIntoSentences (cs : List Char) : List (List Char) :=
  if cs.isEmpty then [] else mergeShort (sentSplit cs)

/-! ## `_chunk_text` (lines 192-234) -/

/-- Python `' '.join(current_chunk)`. -/
def joinSp : List (List Char) → List Char
  | [] => []
  | [s] => s
  | s :: t :: rest => s ++ ' ' :: joinSp (t :: rest)

/-- The force-split loop
`for i in range(0, len(sentence), limit): yield sentence[i:i+limit]`
(lines 219-220). -/
def sliceChunks (s : List Char) : List (List Char) :=
  if s.isEmpty then []
  else s.take CHUNK_CHAR_LIMIT :: sliceChunks (s.drop CHUNK_CHAR_LIMIT)
termination_by s.length
decreasing_by
  simp only [List.length_drop]
  rename_i h
  have hs : 0 < s.length := by
    cases s with
    | nil => simp at h
    | cons a t => simp
  have hC : CHUNK_CHAR_LIMIT = 2000 := rfl
  omega

/-- The greedy packing loop of `_chunk_text` (lines 206-234).
`cur` is `current_chunk`, `curLen` is `current_length` (which counts one
extra character per accumulated sentence). -/
def packGo : List (List Char) → Nat → List (List Char) → List (List Char)
  | cur, _, [] => if cur.isEmpty then [] else [joinSp cur]
  | cur, curLen, s0 :: rest =>
    let s := pyStrip s0
    if s.isEmpty then
      packGo cur curLen rest
    else if CHUNK_CHAR_LIMIT < s.length then
      (if cur.isEmpty then [] else [joinSp cur]) ++ sliceChunks s ++ packGo [] 0 rest
    else if CHUNK_CHAR_LIMIT < curLen + s.length && !cur.isEmpty then
      joinSp cur :: packGo [s] (s.length + 1) rest
    else
      packGo (cur ++ [s]) (curLen + s.length + 1) rest

/-- The generator `_chunk_text(text)`: empty text yields nothing; text within the limit is
one chunk; longer text is split into sentences and greedily packed. -/
def chunkText (text : List Char) : List (List Char) :=
  if text.isEmpty then []
  else if text.length ≤ CHUNK_CHAR_LIMIT then [text]
  else packGo [] 0 (splitIntoSentences text)

/-! ## `_voice_for_language` (lines 155-190)

The resolution logic of the function body: exact lookup in the mapping,
then a case-insensitive scan in insertion order, then the default voice
with a fallback warning.  (The function is declared `@staticmethod` yet
takes `self` as its first parameter; the consequences of that at the call
site are modelled in `synthesizeText` below, not here.) -/

def voiceMapping : List (String × String) :=
  [("English", "en-US-JennyNeural"),
   ("en", "en-US-JennyNeural"),
   ("Hindi", "hi-IN-SwaraNeural"),
   ("hi", "hi-IN-SwaraNeural"),
   ("Gujarati", "gu-IN-DhwaniNeural"),
   ("gu", "gu-IN-DhwaniNeural"),
   ("Spanish", "es-ES-ElviraNeural"),
   ("es", "es-ES-ElviraNeural"),
   ("French", "fr-FR-DeniseNeural"),
   ("fr", "fr-FR-DeniseNeural"),
   ("German", "de-DE-KatjaNeural"),
   ("de", "de-DE-KatjaNeural")]

/-- Python `str.lower()` restricted to ASCII (all keys of the mapping are
ASCII). -/
def pyLowerChar (c : Char) : Char :=
  if 'A'.toNat ≤ c.toNat && c.toNat ≤ 'Z'.toNat then Char.ofNat (c.toNat + 32) else c

def pyLower (s : String) : String :=
  String.mk (s.toList.map pyLowerChar)

/-- The body of `_voice_for_language`: returns the voice and whether the
fallback warning was logged. -/
def voiceForLanguage (language : String) : String × Bool :=
  match voiceMapping.find? (fun e => e.1 == language) with
  | some e => (e.2, false)
  | none =>
    match voiceMapping.find? (fun e => pyLower e.1 == pyLower language) with
    | some e => (e.2, false)
    | none => ("en-US-JennyNeural", true)

/-! ## `_synthesize_chunk` (lines 37-80)

The edge-tts stream is abstracted by an `AttemptBehavior` per attempt: the
typed events the stream yields before it either finishes normally or
raises.  Audio events are written to the open file as they arrive — also
during attempts that subsequently fail.  An attempt fails if the stream
raises, or if it finishes without a single audio event (`NoAudioReceived`).

The retry schedule combines the `tenacity` decorator
`retry(stop=stop_after_attempt(3), wait=wait_exponential(multiplier=1,
min=1, max=10), reraise=True)` with the explicit
`await asyncio.sleep(min(_INITIAL_RETRY_DELAY * 2**(attempt-1),
_MAX_RETRY_DELAY))` executed at the start of every attempt after the
first.  `tenacity`'s `wait_exponential` sleeps
`max(max(0, min), min(multiplier * 2**k, max))` seconds after the k-th
attempt fails, before attempt k+1; `reraise=True` re-raises the last
error once `stop_after_attempt(3)` is reached. -/

inductive StreamItem : Type
  | audio (data : List Nat)
  | other
deriving DecidableEq

/-- One streaming attempt: events yielded (in order), and whether the
stream raised after yielding them. -/
structure AttemptBehavior : Type where
  items : List StreamItem
  raises : Bool
deriving DecidableEq

/-- Bytes written to the output file by one attempt (every audio event is
written immediately, line 65). -/
def attemptWrites (b : AttemptBehavior) : List Nat :=
  b.items.foldr (fun it acc => match it with | .audio d => d ++ acc | .other => acc) []

/-- Whether one attempt counts as failed: the stream raised, or no audio
event was seen (`NoAudioReceived`, lines 68-69).  Both are caught and
re-raised by the `except` block, so they reach the retry machinery. -/
def attemptFails (b : AttemptBehavior) : Bool :=
  b.raises || !(b.items.any (fun it => match it with | .audio _ => true | .other => false))

/-- The `tenacity` delay `wait_exponential(multiplier=1, min=1, max=10)` after failed
attempt number `k`. -/
def tenacityWait (k : Nat) : Nat :=
  max (max 0 INITIAL_RETRY_DELAY) (min (1 * 2 ^ k) MAX_RETRY_DELAY)

/-- The in-attempt sleep of lines 47-52, executed when the current attempt
number exceeds 1. -/
def manualDelay (attempt : Nat) : Nat :=
  min (INITIAL_RETRY_DELAY * 2 ^ (attempt - 1)) MAX_RETRY_DELAY

/-- Outcome of `_synthesize_chunk` for one chunk: whether it ultimately
succeeded, all bytes appended to the file across all attempts, the number
of attempts made, and every backoff sleep as a pair
(number of the attempt about to run, seconds slept). -/
structure ChunkRun : Type where
  success : Bool
  written : List Nat
  attempts : Nat
  sleeps : List (Nat × Nat)
deriving DecidableEq

/-- The retry loop of `_synthesize_chunk` starting at attempt `n` with
`r` attempts remaining (so `runChunkFrom b 1 MAX_RETRIES` is one call). -/
def runChunkFrom (b : Nat → AttemptBehavior) : Nat → Nat → ChunkRun
  | _, 0 => ⟨false, [], 0, []⟩
  | n, r + 1 =>
    let mb : List (Nat × Nat) := if 1 < n then [(n, manualDelay n)] else []
    let w := attemptWrites (b n)
    if attemptFails (b n) = false then
      ⟨true, w, n, mb⟩
    else if r = 0 then
      ⟨false, w, n, mb⟩
    else
      let rest := runChunkFrom b (n + 1) r
      ⟨rest.success, w ++ rest.written, rest.attempts,
        mb ++ (n + 1, tenacityWait n) :: rest.sleeps⟩

/-- A full `_synthesize_chunk` call (`success = false` models the original
exception being re-raised to the caller after exhaustion). -/
def runChunk (b : Nat → AttemptBehavior) : ChunkRun :=
  runChunkFrom b 1 MAX_RETRIES

/-- The sleeps applied before attempt `n`, in order. -/
def sleepsBefore (r : ChunkRun) (n : Nat) : List Nat :=
  (r.sleeps.filter (fun p => p.1 == n)).map (fun p => p.2)

/-! ## Filesystem model -/

/-- A filesystem path, as components under the process root. -/
abbrev FPath : Type := List String

/-- Directories that exist, and files with their byte contents. -/
structure FS : Type where
  dirs : List FPath
  files : List (FPath × List Nat)
deriving DecidableEq

def getFile (fs : FS) (p : FPath) : Option (List Nat) :=
  (fs.files.find? (fun e => decide (e.1 = p))).map (fun e => e.2)

def removeFile (fs : FS) (p : FPath) : FS :=
  ⟨fs.dirs, fs.files.filter (fun e => decide (¬ e.1 = p))⟩

def setFile (fs : FS) (p : FPath) (v : List Nat) : FS :=
  ⟨fs.dirs, (p, v) :: fs.files.filter (fun e => decide (¬ e.1 = p))⟩

/-- The nonempty prefixes of a path. -/
def fpathParents (p : FPath) : List FPath :=
  (List.range p.length).map (fun i => p.take (i + 1))

/-- Python `Path.mkdir(parents=True, exist_ok=True)`: create the directory and all
missing ancestors. -/
def mkdirParents (fs : FS) (p : FPath) : FS :=
  ⟨fs.dirs ++ (fpathParents p).filter (fun q => decide (¬ q ∈ fs.dirs)), fs.files⟩

/-! ## `synthesize_text` and its helpers (lines 82-153) -/

/-- A synthesis request (the keyword arguments of `synthesize_text`). -/
structure Request : Type where
  lectureId : String
  text : String
  language : String
  filename : String
  subfolder : Option String
deriving DecidableEq

/-- Python truthiness in `if subfolder:` skips both `None` and `""`. -/
def subfolderParts : Option String → List String
  | none => []
  | some s => if s.isEmpty then [] else [s]

/-- The lecture directory `storage_root / lecture_id [/ subfolder]`
computed by `_build_audio_path` (lines 148-153). -/
def lectureDir (root : FPath) (req : Request) : FPath :=
  root ++ [req.lectureId] ++ subfolderParts req.subfolder

/-- The target file path `lecture_dir / filename`. -/
def targetPath (root : FPath) (req : Request) : FPath :=
  lectureDir root req ++ [req.filename]

inductive PyErr : Type
  | typeError
deriving DecidableEq

inductive LogEvent : Type
  | skipEmpty
  | chunkFailed
  | synthesisFailed
  | successInfo
deriving DecidableEq

/-- The chunk loop of `synthesize_text` (lines 110-121): chunks are
processed strictly in order; each chunk's bytes (from all of its attempts)
are appended to the open file; the first chunk whose retries are exhausted
aborts the loop.  Returns whether all chunks succeeded and the bytes
written to the file. -/
def runChunksLoop (oracle : Nat → Nat → AttemptBehavior) : Nat → List (List Char) → Bool × List Nat
  | _, [] => (true, [])
  | i, _ :: rest =>
    let r := runChunk (oracle i)
    if r.success then
      let next := runChunksLoop oracle (i + 1) rest
      (next.1, r.written ++ next.2)
    else
      (false, r.written)

/-- Lines 104-146 of `synthesize_text`, given the already-resolved target
path, voice and chunk list: create the parent directory, open the target
for writing (which creates/truncates it), run the chunk loop, verify the
result is nonempty, and on any failure delete the target and return no
path.  In the program this code is unreachable (see `synthesizeText`), but
it is the code the artifact guarantees of the specification describe. -/
def synthesizeBody (fs : FS) (target : FPath) (chunks : List (List Char))
    (oracle : Nat → Nat → AttemptBehavior) : Option FPath × FS × List LogEvent :=
  let fs0 := mkdirParents fs target.dropLast
  let fsOpen := setFile fs0 target []
  let run := runChunksLoop oracle 0 chunks
  let fsDone := setFile fsOpen target run.2
  if run.1 then
    match getFile fsDone target with
    | none => (none, removeFile fsDone target, [.synthesisFailed])
    | some bytes =>
      if bytes.length = 0 then
        (none, removeFile fsDone target, [.synthesisFailed])
      else
        (some target, fsDone, [.successInfo])
  else
    (none, removeFile fsDone target, [.chunkFailed, .synthesisFailed])

deriving instance DecidableEq for Except

structure SynthResult : Type where
  result : Except PyErr (Option FPath)
  fs : FS
  logs : List LogEvent
deriving DecidableEq

/-- The method `synthesize_text` (lines 82-146).

The normalized text `(text or "").strip()` is computed first; empty text
is rejected with an info log, returning `None` and touching nothing.
Otherwise `_build_audio_path` creates the lecture directory and line 102
evaluates `self._voice_for_language(language)`.  `_voice_for_language` is
declared `@staticmethod` but its parameter list is `(self, language)`, so
this call binds `language` to the parameter named `self` and leaves the
parameter named `language` without a value: Python raises
`TypeError: _voice_for_language() missing 1 required positional argument`
before the body of the method runs.  The raise happens at line 102,
outside the `try` of line 107, so it propagates to the caller; the code
from line 104 on (embedded as `synthesizeBody`) is unreachable. -/
def synthesizeText (root : FPath) (fs : FS) (req : Request)
    (_oracle : Nat → Nat → AttemptBehavior) : SynthResult :=
  let normalized := pyStrip req.text.toList
  if normalized.isEmpty then
    ⟨.ok none, fs, [.skipEmpty]⟩
  else
    let fs1 := mkdirParents fs (lectureDir root req)
    ⟨.error .typeError, fs1, []⟩

/-! ## Content preservation through the chunking pipeline (claim C4)

`keepNonWs` extracts the non-whitespace character sequence; every stage of
the chunking pipeline preserves it. -/

def keepNonWs (cs : List Char) : List Char :=
  cs.filter (fun c => !(isPySpace c))

theorem keepNonWs_append (a b : List Char) :
    keepNonWs (a ++ b) = keepNonWs a ++ keepNonWs b :=
  List.filter_append a b

theorem keepNonWs_dropWhile (l : List Char) :
    keepNonWs (l.dropWhile isPySpace) = keepNonWs l := by
  induction l with
  | nil => rfl
  | cons a t ih =>
    rw [List.dropWhile_cons]
    by_cases h : isPySpace a = true
    · rw [if_pos h, ih]
      unfold keepNonWs
      rw [List.filter_cons]
      simp [h]
    · rw [if_neg h]

theorem keepNonWs_reverse (l : List Char) :
    keepNonWs l.reverse = (keepNonWs l).reverse :=
  List.filter_reverse _ l

theorem keepNonWs_pyStrip (l : List Char) :
    keepNonWs (pyStrip l) = keepNonWs l := by
  unfold pyStrip
  rw [keepNonWs_reverse, keepNonWs_dropWhile, keepNonWs_reverse,
    keepNonWs_dropWhile, List.reverse_reverse]

theorem keepNonWs_takeWhile_isPySpace (l : List Char) :
    keepNonWs (l.takeWhile isPySpace) = [] := by
  unfold keepNonWs
  rw [List.filter_eq_nil_iff]
  intro a ha
  simp [List.mem_takeWhile_imp ha]

theorem isSentEnd_not_space {c : Char} (h : isSentEnd c = true) :
    isPySpace c = false := by
  have h2 : (c = '.' ∨ c = '!') ∨ c = '?' := by
    simpa [isSentEnd, beq_iff_eq] using h
  rcases h2 with (h2 | h2) | h2 <;> rw [h2] <;> decide

theorem keepNonWs_sentSplitGo (acc cs : List Char) :
    keepNonWs (sentSplitGo acc cs).flatten = keepNonWs (acc.reverse ++ cs) := by
  induction acc, cs using sentSplitGo.induct with
  | case1 acc =>
    rw [sentSplitGo]
    simp
  | case2 acc c rest hc run rest2 hcond ih =>
    have hns : isPySpace c = false := isSentEnd_not_space hc
    have hstep : sentSplitGo acc (c :: rest)
        = (acc.reverse ++ [c]) :: sentSplitGo [] (rest.dropWhile isPySpace) := by
      rw [sentSplitGo]
      simp only [hc, hcond]
      simp
    rw [hstep, List.flatten_cons, keepNonWs_append, ih]
    simp only [List.reverse_nil, List.nil_append]
    rw [keepNonWs_dropWhile]
    unfold keepNonWs
    simp [List.filter_cons, List.filter_append, hns, List.append_assoc]
  | case3 acc c rest hc run rest2 hcond ih =>
    have hstep : sentSplitGo acc (c :: rest) = sentSplitGo (c :: acc) rest := by
      rw [sentSplitGo]
      simp only [hc, hcond]
      simp
    rw [hstep, ih]
    simp [keepNonWs_append, List.append_assoc, keepNonWs]
  | case4 acc c rest hc ih =>
    have hstep : sentSplitGo acc (c :: rest) = sentSplitGo (c :: acc) rest := by
      rw [sentSplitGo]
      simp only [hc]
      simp
    rw [hstep, ih]
    simp [keepNonWs_append, List.append_assoc, keepNonWs]

theorem keepNonWs_nil : keepNonWs [] = [] := rfl

theorem keepNonWs_space_cons (l : List Char) :
    keepNonWs (' ' :: l) = keepNonWs l := by
  unfold keepNonWs
  rw [List.filter_cons]
  have h : (!isPySpace ' ') = false := rfl
  rw [h]
  simp

theorem keepNonWs_mergeShort (L : List (List Char)) :
    keepNonWs (mergeShort L).flatten = keepNonWs L.flatten := by
  induction L using mergeShort.induct with
  | case1 => rfl
  | case2 s => rfl
  | case3 s1 s2 rest hcond ih =>
    rw [mergeShort, if_pos hcond]
    simp only [List.flatten_cons, keepNonWs_append, keepNonWs_space_cons, ih,
      List.append_assoc]
  | case4 s1 s2 rest hcond ih =>
    rw [mergeShort, if_neg hcond]
    simp only [List.flatten_cons, keepNonWs_append, ih, List.append_assoc]

theorem keepNonWs_splitIntoSentences (cs : List Char) :
    keepNonWs (splitIntoSentences cs).flatten = keepNonWs cs := by
  unfold splitIntoSentences
  by_cases h : cs.isEmpty
  · rw [if_pos h]
    have h2 : cs = [] := by simpa [List.isEmpty_iff] using h
    rw [h2]
    rfl
  · rw [if_neg h, keepNonWs_mergeShort]
    have h2 := keepNonWs_sentSplitGo [] cs
    simpa using h2

theorem keepNonWs_joinSp (L : List (List Char)) :
    keepNonWs (joinSp L) = keepNonWs L.flatten := by
  induction L using joinSp.induct with
  | case1 => rfl
  | case2 s =>
    simp only [joinSp, List.flatten_cons, List.flatten_nil, List.append_nil]
  | case3 s t rest ih =>
    rw [joinSp]
    simp only [List.flatten_cons, keepNonWs_append, keepNonWs_space_cons, ih,
      List.append_assoc]

theorem flatten_sliceChunks (s : List Char) :
    (sliceChunks s).flatten = s := by
  induction s using sliceChunks.induct with
  | case1 s hs =>
    rw [sliceChunks, if_pos hs]
    simp only [List.isEmpty_iff] at hs
    simp [hs]
  | case2 s hs ih =>
    rw [sliceChunks, if_neg hs, List.flatten_cons, ih, List.take_append_drop]

theorem keepNonWs_packGo (L : List (List Char)) (cur : List (List Char)) (curLen : Nat) :
    keepNonWs (packGo cur curLen L).flatten
      = keepNonWs cur.flatten ++ keepNonWs L.flatten := by
  induction L generalizing cur curLen with
  | nil =>
    simp only [packGo]
    by_cases h : cur.isEmpty
    · have hc : cur = [] := by simpa [List.isEmpty_iff] using h
      rw [if_pos h, hc]
      rfl
    · rw [if_neg h]
      simp only [List.flatten_cons, List.flatten_nil, List.append_nil,
        keepNonWs_joinSp, keepNonWs_nil]
  | cons s0 rest ih =>
    simp only [packGo]
    by_cases h1 : (pyStrip s0).isEmpty
    · rw [if_pos h1, ih]
      have hstrip : keepNonWs s0 = [] := by
        have h2 : pyStrip s0 = [] := by simpa [List.isEmpty_iff] using h1
        rw [← keepNonWs_pyStrip s0, h2]
        rfl
      simp only [List.flatten_cons, keepNonWs_append, hstrip, List.nil_append]
    · rw [if_neg h1]
      by_cases h2 : CHUNK_CHAR_LIMIT < (pyStrip s0).length
      · rw [if_pos h2]
        by_cases h3 : cur.isEmpty
        · have hc : cur = [] := by simpa [List.isEmpty_iff] using h3
          rw [if_pos h3, hc]
          simp only [List.nil_append, List.flatten_append, List.flatten_cons,
            List.flatten_nil, keepNonWs_append, keepNonWs_nil, ih,
            flatten_sliceChunks, keepNonWs_pyStrip, List.append_nil,
            List.append_assoc]
        · rw [if_neg h3]
          simp only [List.flatten_append, List.flatten_cons, List.flatten_nil,
            keepNonWs_append, keepNonWs_nil, keepNonWs_joinSp, ih,
            flatten_sliceChunks, keepNonWs_pyStrip, List.append_nil,
            List.nil_append, List.append_assoc]
      · rw [if_neg h2]
        by_cases h3 : (decide (CHUNK_CHAR_LIMIT < curLen + (pyStrip s0).length)
            && !cur.isEmpty) = true
        · rw [if_pos h3]
          simp only [List.flatten_cons, List.flatten_nil, keepNonWs_append,
            keepNonWs_nil, keepNonWs_joinSp, ih, keepNonWs_pyStrip,
            List.append_nil, List.nil_append, List.append_assoc]
        · rw [if_neg h3]
          rw [ih]
          simp only [List.flatten_append, List.flatten_cons, List.flatten_nil,
            keepNonWs_append, keepNonWs_nil, keepNonWs_pyStrip,
            List.append_nil, List.nil_append, List.append_assoc]

/-! ## Force-split slice lemmas (claim C8) -/

theorem sliceChunks_length_le (s : List Char) :
    ∀ c ∈ sliceChunks s, c.length ≤ CHUNK_CHAR_LIMIT := by
  induction s using sliceChunks.induct with
  | case1 s hs =>
    rw [sliceChunks, if_pos hs]
    intro c hc
    exact absurd hc (List.not_mem_nil c)
  | case2 s hs ih =>
    rw [sliceChunks, if_neg hs]
    intro c hc
    rcases List.mem_cons.mp hc with hc | hc
    · rw [hc]
      exact List.length_take_le CHUNK_CHAR_LIMIT s
    · exact ih c hc

theorem sliceChunks_count (s : List Char) (hs : s ≠ []) :
    (sliceChunks s).length = (s.length + CHUNK_CHAR_LIMIT - 1) / CHUNK_CHAR_LIMIT := by
  induction s using sliceChunks.induct with
  | case1 s hs2 =>
    exact absurd (by simpa [List.isEmpty_iff] using hs2) hs
  | case2 s hs2 ih =>
    rw [sliceChunks, if_neg hs2]
    have hpos : 0 < s.length :=
      List.length_pos.mpr (by simpa [List.isEmpty_iff] using hs2)
    have hnilslice : sliceChunks ([] : List Char) = [] := by
      rw [sliceChunks]
      simp
    have hC : CHUNK_CHAR_LIMIT = 2000 := rfl
    by_cases hlen : s.length ≤ CHUNK_CHAR_LIMIT
    · have hdrop : s.drop CHUNK_CHAR_LIMIT = [] := by
        rw [List.drop_eq_nil_iff]
        exact hlen
      rw [hdrop, hnilslice, List.length_cons, List.length_nil]
      rw [hC] at hlen ⊢
      omega
    · have hdrop : s.drop CHUNK_CHAR_LIMIT ≠ [] := by
        rw [Ne, List.drop_eq_nil_iff]
        omega
      rw [List.length_cons, ih hdrop, List.length_drop]
      rw [hC] at hlen ⊢
      omega

theorem sliceChunks_getD (s : List Char) :
    ∀ i, (sliceChunks s).getD i [] = (s.drop (i * CHUNK_CHAR_LIMIT)).take CHUNK_CHAR_LIMIT := by
  induction s using sliceChunks.induct with
  | case1 s hs =>
    intro i
    have hnil : s = [] := by simpa [List.isEmpty_iff] using hs
    rw [sliceChunks, if_pos hs, hnil]
    simp
  | case2 s hs ih =>
    intro i
    rw [sliceChunks, if_neg hs]
    cases i with
    | zero => simp
    | succ j =>
      rw [List.getD_cons_succ, ih j, List.drop_drop]
      have harith : CHUNK_CHAR_LIMIT + j * CHUNK_CHAR_LIMIT = (j + 1) * CHUNK_CHAR_LIMIT := by
        ring
      rw [harith]

/-! ## Chunk length bound and whole-sentence packing (claim C7) -/

/-- Length of a space-join: the sum of the lengths plus one separator per
extra element. -/
theorem joinSp_length (L : List (List Char)) (hL : L ≠ []) :
    (joinSp L).length + 1 = (L.map List.length).sum + L.length := by
  induction L using joinSp.induct with
  | case1 => exact absurd rfl hL
  | case2 s => simp [joinSp]
  | case3 s t rest ih =>
    rw [joinSp]
    have h2 := ih (by simp)
    simp only [List.map_cons, List.sum_cons, List.length_cons,
      List.length_append] at h2 ⊢
    omega

theorem packGo_length_le (L : List (List Char)) (cur : List (List Char)) (curLen : Nat)
    (hsum : curLen = (cur.map List.length).sum + cur.length)
    (hbound : curLen ≤ CHUNK_CHAR_LIMIT + 1) :
    ∀ c ∈ packGo cur curLen L, c.length ≤ CHUNK_CHAR_LIMIT := by
  induction L generalizing cur curLen with
  | nil =>
    simp only [packGo]
    by_cases h : cur.isEmpty
    · rw [if_pos h]
      intro c hc
      exact absurd hc (List.not_mem_nil c)
    · rw [if_neg h]
      intro c hc
      rcases List.mem_cons.mp hc with hc | hc
      · have hne : cur ≠ [] := by simpa [List.isEmpty_iff] using h
        have := joinSp_length cur hne
        rw [hc]
        omega
      · exact absurd hc (List.not_mem_nil c)
  | cons s0 rest ih =>
    simp only [packGo]
    by_cases h1 : (pyStrip s0).isEmpty
    · rw [if_pos h1]
      exact ih cur curLen hsum hbound
    · rw [if_neg h1]
      by_cases h2 : CHUNK_CHAR_LIMIT < (pyStrip s0).length
      · rw [if_pos h2]
        intro c hc
        rcases List.mem_append.mp hc with hc | hc
        · rcases List.mem_append.mp hc with hc | hc
          · by_cases h3 : cur.isEmpty
            · rw [if_pos h3] at hc
              exact absurd hc (List.not_mem_nil c)
            · rw [if_neg h3] at hc
              rcases List.mem_cons.mp hc with hc | hc
              · have hne : cur ≠ [] := by simpa [List.isEmpty_iff] using h3
                have := joinSp_length cur hne
                rw [hc]
                omega
              · exact absurd hc (List.not_mem_nil c)
          · exact sliceChunks_length_le (pyStrip s0) c hc
        · exact ih [] 0 (by simp) (by omega) c hc
      · rw [if_neg h2]
        by_cases h3 : (decide (CHUNK_CHAR_LIMIT < curLen + (pyStrip s0).length)
            && !cur.isEmpty) = true
        · rw [if_pos h3]
          intro c hc
          rcases List.mem_cons.mp hc with hc | hc
          · have hne : cur ≠ [] := by
              have h4 := (Bool.and_eq_true _ _).mp h3
              simpa [List.isEmpty_iff] using h4.2
            have := joinSp_length cur hne
            rw [hc]
            omega
          · refine ih [(pyStrip s0)] ((pyStrip s0).length + 1) (by simp) (by omega) c hc
        · rw [if_neg h3]
          have hsum2 : curLen + (pyStrip s0).length + 1
              = ((cur ++ [pyStrip s0]).map List.length).sum + (cur ++ [pyStrip s0]).length := by
            simp [List.map_append, List.sum_append, List.length_append]
            omega
          have hbound2 : curLen + (pyStrip s0).length + 1 ≤ CHUNK_CHAR_LIMIT + 1 := by
            by_cases h4 : cur.isEmpty
            · have hc : cur = [] := by simpa [List.isEmpty_iff] using h4
              rw [hc] at hsum
              simp at hsum
              omega
            · have h5 : ¬ CHUNK_CHAR_LIMIT < curLen + (pyStrip s0).length := by
                by_contra h5
                apply h3
                simp [h5, h4]
              omega
          exact ih (cur ++ [pyStrip s0]) (curLen + (pyStrip s0).length + 1) hsum2 hbound2

/-- Every chunk the chunker yields fits the character budget. -/
theorem chunkText_length_le (text : List Char) :
    ∀ c ∈ chunkText text, c.length ≤ CHUNK_CHAR_LIMIT := by
  unfold chunkText
  by_cases h1 : text.isEmpty
  · rw [if_pos h1]
    intro c hc
    exact absurd hc (List.not_mem_nil c)
  · rw [if_neg h1]
    by_cases h2 : text.length ≤ CHUNK_CHAR_LIMIT
    · rw [if_pos h2]
      intro c hc
      rcases List.mem_cons.mp hc with hc | hc
      · rw [hc]; exact h2
      · exact absurd hc (List.not_mem_nil c)
    · rw [if_neg h2]
      exact packGo_length_le _ [] 0 (by simp) (by omega)

/-- The predicate `containedIn s c`: `s` occurs contiguously inside `c`. -/
def containedIn (s c : List Char) : Prop :=
  ∃ a b, c = a ++ s ++ b

theorem containedIn_joinSp (s : List Char) (L : List (List Char)) (hs : s ∈ L) :
    containedIn s (joinSp L) := by
  induction L using joinSp.induct with
  | case1 => exact absurd hs (List.not_mem_nil s)
  | case2 t =>
    have h : s = t := by simpa using hs
    exact ⟨[], [], by simp [h, joinSp]⟩
  | case3 t u rest ih =>
    rcases List.mem_cons.mp hs with h | h
    · exact ⟨[], ' ' :: joinSp (u :: rest), by simp [h, joinSp]⟩
    · rcases ih h with ⟨a, b, hab⟩
      exact ⟨t ++ ' ' :: a, b, by simp [joinSp, hab, List.append_assoc]⟩

theorem packGo_whole (L : List (List Char)) (cur : List (List Char)) (curLen : Nat)
    (s : List Char)
    (hs : s ∈ cur ∨ ∃ s0 ∈ L, s = pyStrip s0 ∧ s ≠ [] ∧ s.length ≤ CHUNK_CHAR_LIMIT) :
    ∃ c ∈ packGo cur curLen L, containedIn s c := by
  induction L generalizing cur curLen with
  | nil =>
    rcases hs with hs | ⟨s0, hs0, _⟩
    · have hne : cur ≠ [] := List.ne_nil_of_mem hs
      have hne2 : ¬ cur.isEmpty = true := by simpa [List.isEmpty_iff] using hne
      simp only [packGo, if_neg hne2]
      exact ⟨joinSp cur, List.mem_singleton.mpr rfl, containedIn_joinSp s cur hs⟩
    · exact absurd hs0 (List.not_mem_nil s0)
  | cons s0 rest ih =>
    simp only [packGo]
    by_cases h1 : (pyStrip s0).isEmpty
    · rw [if_pos h1]
      refine ih cur curLen ?_
      rcases hs with hs | ⟨s1, hs1, he, hne, hle⟩
      · exact Or.inl hs
      · rcases List.mem_cons.mp hs1 with h | h
        · exfalso
          apply hne
          rw [he, h]
          simpa [List.isEmpty_iff] using h1
        · exact Or.inr ⟨s1, h, he, hne, hle⟩
    · rw [if_neg h1]
      by_cases h2 : CHUNK_CHAR_LIMIT < (pyStrip s0).length
      · rw [if_pos h2]
        rcases hs with hs | ⟨s1, hs1, he, hne, hle⟩
        · have hne : cur ≠ [] := List.ne_nil_of_mem hs
          have hne2 : ¬ cur.isEmpty = true := by simpa [List.isEmpty_iff] using hne
          rw [if_neg hne2]
          refine ⟨joinSp cur, ?_, containedIn_joinSp s cur hs⟩
          exact List.mem_append_left _ (List.mem_append_left _ (List.mem_singleton.mpr rfl))
        · rcases List.mem_cons.mp hs1 with h | h
          · exfalso
            rw [he, h] at hle
            omega
          · rcases ih [] 0 (Or.inr ⟨s1, h, he, hne, hle⟩) with ⟨c, hc, hin⟩
            exact ⟨c, List.mem_append_right _ hc, hin⟩
      · rw [if_neg h2]
        by_cases h3 : (decide (CHUNK_CHAR_LIMIT < curLen + (pyStrip s0).length)
            && !cur.isEmpty) = true
        · rw [if_pos h3]
          rcases hs with hs | ⟨s1, hs1, he, hne, hle⟩
          · exact ⟨joinSp cur, List.mem_cons_self _ _, containedIn_joinSp s cur hs⟩
          · rcases List.mem_cons.mp hs1 with h | h
            · rcases ih [pyStrip s0] ((pyStrip s0).length + 1)
                (Or.inl (by rw [he, h]; exact List.mem_singleton.mpr rfl)) with ⟨c, hc, hin⟩
              exact ⟨c, List.mem_cons_of_mem _ hc, hin⟩
            · rcases ih [pyStrip s0] ((pyStrip s0).length + 1)
                (Or.inr ⟨s1, h, he, hne, hle⟩) with ⟨c, hc, hin⟩
              exact ⟨c, List.mem_cons_of_mem _ hc, hin⟩
        · rw [if_neg h3]
          refine ih (cur ++ [pyStrip s0]) (curLen + (pyStrip s0).length + 1) ?_
          rcases hs with hs | ⟨s1, hs1, he, hne, hle⟩
          · exact Or.inl (List.mem_append_left _ hs)
          · rcases List.mem_cons.mp hs1 with h | h
            · refine Or.inl (List.mem_append_right _ ?_)
              rw [he, h]
              exact List.mem_singleton.mpr rfl
            · exact Or.inr ⟨s1, h, he, hne, hle⟩

/-! ## Evaluating the splitter on structured inputs

These lemmas let the pipeline be evaluated on concrete multi-thousand
character inputs without elementwise kernel computation. -/

theorem sentSplitGo_plain (l : List Char) (h : ∀ c ∈ l, isSentEnd c = false) :
    ∀ acc rest, sentSplitGo acc (l ++ rest) = sentSplitGo (l.reverse ++ acc) rest := by
  induction l with
  | nil =>
    intro acc rest
    simp
  | cons c t ih =>
    intro acc rest
    have hc : isSentEnd c = false := h c (List.mem_cons_self c t)
    have hstep : sentSplitGo acc (c :: (t ++ rest)) = sentSplitGo (c :: acc) (t ++ rest) := by
      rw [sentSplitGo]
      simp only [hc]
      simp
    rw [List.cons_append, hstep, ih (fun d hd => h d (List.mem_cons_of_mem c hd))]
    simp [List.append_assoc]

theorem sentSplitGo_boundary (acc : List Char) (u : Char) (tail : List Char)
    (hu : isUpperAZ u = true) (hns : isPySpace u = false) :
    sentSplitGo acc ('.' :: '\n' :: u :: tail)
      = (acc.reverse ++ ['.']) :: sentSplitGo [] (u :: tail) := by
  rw [sentSplitGo]
  have h1 : isSentEnd '.' = true := rfl
  have h2 : isPySpace '\n' = true := rfl
  simp only [h1, List.takeWhile_cons, List.dropWhile_cons, h2, hns, hu]
  simp [hu]

theorem sentSplitGo_dot_end (acc : List Char) :
    sentSplitGo acc ['.'] = [acc.reverse ++ ['.']] := by
  rw [sentSplitGo]
  have h1 : isSentEnd '.' = true := rfl
  simp only [h1, List.takeWhile_nil, List.dropWhile_nil]
  simp [sentSplitGo]

/-- `pyStrip` is the identity on a list with whitespace-free endpoints. -/
theorem pyStrip_of_no_space (l : List Char) (h : ∀ c ∈ l, isPySpace c = false) :
    pyStrip l = l := by
  have hdrop : ∀ (m : List Char), (∀ c ∈ m, isPySpace c = false)
      → m.dropWhile isPySpace = m := by
    intro m hm
    cases m with
    | nil => rfl
    | cons a t =>
      rw [List.dropWhile_cons, hm a (List.mem_cons_self a t)]
      simp
  unfold pyStrip
  rw [hdrop l h, hdrop l.reverse (fun c hc => h c (List.mem_reverse.mp hc)),
    List.reverse_reverse]

theorem pyStrip_sandwich (c d : Char) (mid : List Char)
    (hc : isPySpace c = false) (hd : isPySpace d = false) :
    pyStrip ((c :: mid) ++ [d]) = (c :: mid) ++ [d] := by
  unfold pyStrip
  have h1 : ((c :: mid) ++ [d]).dropWhile isPySpace = (c :: mid) ++ [d] := by
    rw [List.cons_append, List.dropWhile_cons, hc]
    simp
  rw [h1, List.reverse_append, List.reverse_cons]
  have h2 : (([d].reverse ++ (mid.reverse ++ [c])).dropWhile isPySpace)
      = [d].reverse ++ (mid.reverse ++ [c]) := by
    simp only [List.reverse_cons, List.reverse_nil, List.nil_append, List.cons_append]
    rw [List.dropWhile_cons, hd]
    simp
  simp only [List.reverse_cons, List.reverse_nil, List.nil_append] at h2 ⊢
  rw [h2]
  simp

/-! ## The shared concrete chunking input

`exText` is 2016 characters: two short sentences and one 1992-character
sentence, separated by newlines. -/

def exB1 : List Char := 'A' :: List.replicate 9 'a'

def exB2 : List Char := 'B' :: List.replicate 9 'a'

def exB3 : List Char := 'C' :: List.replicate 1990 'c'

def exS1 : List Char := exB1 ++ ['.']

def exS2 : List Char := exB2 ++ ['.']

def exS3 : List Char := exB3 ++ ['.']

def exText : List Char :=
  exB1 ++ '.' :: '\n' :: (exB2 ++ '.' :: '\n' :: (exB3 ++ ['.']))

def exChunk1 : List Char := exS1 ++ ' ' :: exS2

theorem exB1_plain : ∀ c ∈ exB1, isSentEnd c = false := by
  intro c hc
  rcases List.mem_cons.mp hc with h | h
  · rw [h]; rfl
  · rw [List.eq_of_mem_replicate h]; rfl

theorem exB2_plain : ∀ c ∈ exB2, isSentEnd c = false := by
  intro c hc
  rcases List.mem_cons.mp hc with h | h
  · rw [h]; rfl
  · rw [List.eq_of_mem_replicate h]; rfl

theorem exB3_plain : ∀ c ∈ exB3, isSentEnd c = false := by
  intro c hc
  rcases List.mem_cons.mp hc with h | h
  · rw [h]; rfl
  · rw [List.eq_of_mem_replicate h]; rfl

theorem sentSplit_exText : sentSplit exText = [exS1, exS2, exS3] := by
  unfold sentSplit exText
  rw [sentSplitGo_plain exB1 exB1_plain []]
  rw [show exB2 ++ '.' :: '\n' :: (exB3 ++ ['.'])
        = 'B' :: (List.replicate 9 'a' ++ '.' :: '\n' :: (exB3 ++ ['.'])) from rfl]
  rw [sentSplitGo_boundary _ 'B' _ (by rfl) (by rfl)]
  rw [show ('B' : Char) :: (List.replicate 9 'a' ++ '.' :: '\n' :: (exB3 ++ ['.']))
        = exB2 ++ '.' :: '\n' :: (exB3 ++ ['.']) from rfl]
  rw [sentSplitGo_plain exB2 exB2_plain []]
  rw [show exB3 ++ ['.'] = 'C' :: (List.replicate 1990 'c' ++ ['.']) from rfl]
  rw [sentSplitGo_boundary _ 'C' _ (by rfl) (by rfl)]
  rw [show ('C' : Char) :: (List.replicate 1990 'c' ++ ['.'])
        = exB3 ++ ['.'] from rfl]
  rw [sentSplitGo_plain exB3 exB3_plain []]
  rw [sentSplitGo_dot_end]
  simp only [List.append_nil, List.reverse_reverse, exS1, exS2, exS3]

theorem exText_not_empty : exText.isEmpty = false := rfl

theorem exS1_not_empty : exS1.isEmpty = false := rfl

theorem exS2_not_empty : exS2.isEmpty = false := rfl

theorem exS3_not_empty : exS3.isEmpty = false := rfl

theorem exS1_length : exS1.length = 11 := by
  rw [exS1, exB1]
  simp only [List.length_append, List.length_cons, List.length_replicate,
    List.length_nil]

theorem exS2_length : exS2.length = 11 := by
  rw [exS2, exB2]
  simp only [List.length_append, List.length_cons, List.length_replicate,
    List.length_nil]

theorem exS3_length : exS3.length = 1992 := by
  rw [exS3, exB3]
  simp only [List.length_append, List.length_cons, List.length_replicate,
    List.length_nil]

theorem exText_length : exText.length = 2016 := by
  rw [exText, exB1, exB2, exB3]
  simp only [List.length_append, List.length_cons, List.length_replicate,
    List.length_nil]

theorem splitIntoSentences_exText :
    splitIntoSentences exText = [exS1, exS2, exS3] := by
  unfold splitIntoSentences
  rw [if_neg (by rw [exText_not_empty]; exact Bool.false_ne_true), sentSplit_exText]
  rw [mergeShort, if_neg (by rw [exS1_length]; simp)]
  rw [mergeShort, if_neg (by rw [exS2_length]; simp)]
  rfl

theorem pyStrip_exS1 : pyStrip exS1 = exS1 :=
  pyStrip_sandwich 'A' '.' (List.replicate 9 'a') rfl rfl

theorem pyStrip_exS2 : pyStrip exS2 = exS2 :=
  pyStrip_sandwich 'B' '.' (List.replicate 9 'a') rfl rfl

theorem pyStrip_exS3 : pyStrip exS3 = exS3 :=
  pyStrip_sandwich 'C' '.' (List.replicate 1990 'c') rfl rfl

theorem chunkText_exText : chunkText exText = [exChunk1, exS3] := by
  unfold chunkText
  rw [if_neg (by rw [exText_not_empty]; exact Bool.false_ne_true)]
  rw [if_neg (by rw [exText_length]; decide)]
  rw [splitIntoSentences_exText]
  simp only [packGo, pyStrip_exS1, pyStrip_exS2, pyStrip_exS3]
  rw [if_neg (by rw [exS1_not_empty]; exact Bool.false_ne_true)]
  rw [if_neg (by rw [exS1_length]; decide)]
  rw [if_neg (by simp)]
  simp only [List.nil_append, List.length_nil, Nat.zero_add, exS1_length]
  rw [if_neg (by rw [exS2_not_empty]; exact Bool.false_ne_true)]
  rw [if_neg (by rw [exS2_length]; decide)]
  rw [if_neg (by rw [exS2_length]; decide)]
  rw [if_neg (by rw [exS3_not_empty]; exact Bool.false_ne_true)]
  rw [if_neg (by rw [exS3_length]; decide)]
  rw [if_pos (by rw [exS3_length, exS2_length]; decide)]
  rfl

/-! ## Helper lemmas about the filesystem model -/

theorem mkdirParents_mem_self (fs : FS) (p : FPath) (hp : p ≠ []) :
    p ∈ (mkdirParents fs p).dirs := by
  by_cases h : p ∈ fs.dirs
  · exact List.mem_append_left _ h
  · refine List.mem_append_right _ ?_
    rw [List.mem_filter]
    refine ⟨?_, by simpa using h⟩
    unfold fpathParents
    refine List.mem_map.mpr ⟨p.length - 1, ?_, ?_⟩
    · have : 0 < p.length := List.length_pos.mpr hp
      exact List.mem_range.mpr (by omega)
    · have : 0 < p.length := List.length_pos.mpr hp
      have he : p.length - 1 + 1 = p.length := by omega
      rw [he, List.take_length]

theorem mkdirParents_mem_mono (fs : FS) (p d : FPath) (hd : d ∈ fs.dirs) :
    d ∈ (mkdirParents fs p).dirs :=
  List.mem_append_left _ hd

theorem mkdirParents_files (fs : FS) (p : FPath) :
    (mkdirParents fs p).files = fs.files := rfl

/-! ## Concrete inputs shared by the claim instances -/

def fsEmpty : FS := ⟨[], []⟩

def rootEx : FPath := ["storage", "chapter_lectures"]

/-- The end-to-end example request of the specification
(`lectureId:"L1"`, `text:"Hello world."`, `language:"English"`,
`filename:"a.mp3"`). -/
def reqHello : Request := ⟨"L1", "Hello world.", "English", "a.mp3", none⟩

def reqBlank : Request := ⟨"L1", "   ", "English", "a.mp3", none⟩

def tgtHello : FPath := targetPath rootEx reqHello

/-- A synthesizer stub that fails transiently once — the first attempt
streams the audio bytes `[1, 2]` and then raises — and then succeeds,
streaming `[3, 4]`. -/
def orcOnce : Nat → Nat → AttemptBehavior := fun _ n =>
  if n = 1 then ⟨[.audio [1, 2]], true⟩ else ⟨[.audio [3, 4]], false⟩

/-- A synthesizer stub that always fails (streams `[9]`, then raises). -/
def orcFail : Nat → Nat → AttemptBehavior := fun _ _ => ⟨[.audio [9]], true⟩

/-- A per-attempt behavior that always raises before any audio event. -/
def bAllFail : Nat → AttemptBehavior := fun _ => ⟨[], true⟩

/-! ## Claims C1, C2, C3: orchestrator behavior -/

/-- C1.  The claim states that with a synthesizer failing transiently
`k < 3` times and then succeeding, `synthesize_text` returns the artifact
path and the file holds exactly the successful attempts' bytes.  The code
refutes both parts: (a) `synthesize_text` raises `TypeError` at the
`self._voice_for_language(language)` call (a `@staticmethod` whose
parameter list is `(self, language)`), so it returns no path; (b) even the
streaming loop itself (lines 104-146, embedded as `synthesizeBody`) writes
each attempt's audio bytes into the file as they arrive, so the bytes
`[1, 2]` of the failed first attempt remain in the file next to the bytes
`[3, 4]` of the successful attempt. -/
theorem c1_failed_attempt_bytes_reach_file :
    (synthesizeText rootEx fsEmpty reqHello orcOnce).result = .error .typeError
    ∧ chunkText (pyStrip reqHello.text.toList) = ["Hello world.".toList]
    ∧ (synthesizeBody fsEmpty tgtHello (chunkText (pyStrip reqHello.text.toList))
        orcOnce).1 = some tgtHello
    ∧ getFile (synthesizeBody fsEmpty tgtHello (chunkText (pyStrip reqHello.text.toList))
        orcOnce).2.1 tgtHello = some ([1, 2] ++ [3, 4])
    ∧ ([1, 2] ++ [3, 4] : List Nat) ≠ [3, 4] := by
  refine ⟨by decide, by decide, by decide, by decide, by decide⟩

/-- C2.  The claim states that `synthesize_text` never propagates a raised
exception and that voice resolution never fails.  The code refutes it: for
every nonempty text, line 102 calls the `@staticmethod`
`_voice_for_language(self, language)` with a single argument, which raises
`TypeError` outside the `try` block; the specification's own end-to-end
example request already triggers it, and no artifact is produced. -/
theorem c2_synthesize_text_raises_type_error :
    (synthesizeText rootEx fsEmpty reqHello orcOnce).result = .error .typeError
    ∧ getFile (synthesizeText rootEx fsEmpty reqHello orcOnce).fs tgtHello = none := by
  exact ⟨by decide, by decide⟩

/-- C3.  The claim states that when a chunk's retries are exhausted,
`synthesize_text` returns `None` and the target file does not exist.  The
code instead raises `TypeError` at voice resolution (before any synthesis
attempt), so the call never returns `None`.  The cleanup code itself
(lines 130-146, embedded in `synthesizeBody`) does behave as claimed:
with an always-failing synthesizer it returns no path and removes the
target file. -/
theorem c3_exhausted_retries_raise_not_none :
    (synthesizeText rootEx fsEmpty reqHello orcFail).result = .error .typeError
    ∧ (synthesizeBody fsEmpty tgtHello (chunkText (pyStrip reqHello.text.toList))
        orcFail).1 = none
    ∧ getFile (synthesizeBody fsEmpty tgtHello (chunkText (pyStrip reqHello.text.toList))
        orcFail).2.1 tgtHello = none := by
  exact ⟨by decide, by decide, by decide⟩

/-! ## Claim C4: chunk concatenation -/

/-- C4, counterexample.  The chunker joins the sentences it packs together
with a single space, discarding the original separator: on `exText`
(`"Aaaaaaaaaa.\nBaaaaaaaaa.\n" ++ 1992-character sentence`) the first chunk
is `"Aaaaaaaaaa. Baaaaaaaaa."` — a space where the text has a newline — so
no interleaving of the produced chunks with any separator strings can
reconstruct the original text (the first chunk is not even a prefix of
it). -/
theorem c4_chunks_do_not_reconstruct :
    chunkText exText = [exChunk1, exS3]
    ∧ ¬ ∃ w : List Char, exChunk1 ++ w = exText := by
  refine ⟨chunkText_exText, ?_⟩
  rintro ⟨w, hw⟩
  have hlen : exChunk1.length = 23 := by
    rw [exChunk1]
    simp only [List.length_append, List.length_cons, exS1_length, exS2_length]
  have h23 : exText.take 23 = exChunk1 := by
    rw [← hw, List.take_left' hlen]
  have hT : exText.take 23 = exB1 ++ ('.' :: '\n' :: (exB2 ++ ['.'])) := by decide
  have hC1 : exChunk1 = exB1 ++ ('.' :: ' ' :: (exB2 ++ ['.'])) := by
    rw [exChunk1, exS1, exS2]
    simp [List.append_assoc]
  rw [hT, hC1] at h23
  have h2 := List.append_cancel_left h23
  simp at h2

/-- C4, amended.  No non-whitespace text is lost or reordered: for every
input, concatenating all chunks yields exactly the non-whitespace
characters of the original text in their original order.  (Whitespace
separating sentences may be collapsed to a single space inside a chunk or
dropped at a chunk boundary, which is what the counterexample exhibits.) -/
theorem c4_chunks_preserve_content (text : List Char) :
    keepNonWs (chunkText text).flatten = keepNonWs text := by
  unfold chunkText
  by_cases h1 : text.isEmpty
  · rw [if_pos h1]
    have h2 : text = [] := by simpa [List.isEmpty_iff] using h1
    rw [h2]
    rfl
  · rw [if_neg h1]
    by_cases h2 : text.length ≤ CHUNK_CHAR_LIMIT
    · rw [if_pos h2]
      simp only [List.flatten_cons, List.flatten_nil, List.append_nil]
    · rw [if_neg h2]
      rw [keepNonWs_packGo]
      simp only [List.flatten_nil, keepNonWs_nil, List.nil_append,
        keepNonWs_splitIntoSentences]

/-! ## Claim C7: chunk budget and whole-sentence packing -/

/-- C7.  Every chunk the chunker yields has length at most the configured
budget, and every (stripped, nonempty) sentence of the split that fits the
budget appears contiguously inside some chunk — only sentences exceeding
the budget are broken (they are force-split, claim C8). -/
theorem c7_chunk_budget (text : List Char) :
    (∀ c ∈ chunkText text, c.length ≤ CHUNK_CHAR_LIMIT)
    ∧ (∀ s0, s0 ∈ splitIntoSentences text → CHUNK_CHAR_LIMIT < text.length →
        pyStrip s0 ≠ [] → (pyStrip s0).length ≤ CHUNK_CHAR_LIMIT →
        ∃ c ∈ chunkText text, containedIn (pyStrip s0) c) := by
  refine ⟨chunkText_length_le text, ?_⟩
  intro s0 hs0 hlen hne hle
  have hC : CHUNK_CHAR_LIMIT = 2000 := rfl
  unfold chunkText
  have h1 : ¬ text.isEmpty = true := by
    intro h
    have h2 : text = [] := by simpa [List.isEmpty_iff] using h
    rw [h2] at hlen
    simp at hlen
  rw [if_neg h1, if_neg (by omega)]
  exact packGo_whole _ [] 0 _ (Or.inr ⟨s0, hs0, rfl, hne, hle⟩)

/-- C7 witness: on `exText`, the first produced chunk fits the budget and
the second sentence appears whole inside a chunk. -/
theorem c7_chunk_budget_witness :
    exChunk1.length ≤ CHUNK_CHAR_LIMIT
    ∧ ∃ c ∈ chunkText exText, containedIn (pyStrip exS2) c := by
  constructor
  · exact (c7_chunk_budget exText).1 exChunk1
      (by rw [chunkText_exText]; exact List.mem_cons_self _ _)
  · exact (c7_chunk_budget exText).2 exS2
      (by rw [splitIntoSentences_exText]; simp)
      (by rw [exText_length]; decide)
      (by rw [pyStrip_exS2, exS2]; simp)
      (by rw [pyStrip_exS2, exS2_length]; decide)

/-! ## Claim C8: force-splitting of over-budget sentences -/

/-- C8.  A single over-budget sentence is emitted by the chunker as exactly
`ceil(len/limit)` consecutive fixed-size slices: the chunks are precisely
`sliceChunks s`, whose count is `ceil(len/limit)`, whose concatenation is
the sentence, whose members are each at most `limit` long, and whose
`i`-th member is the slice `s[i*limit : (i+1)*limit]`. -/
theorem c8_long_sentence_slices (s : List Char)
    (h1 : CHUNK_CHAR_LIMIT < s.length) (h2 : pyStrip s = s)
    (h3 : sentSplit s = [s]) :
    chunkText s = sliceChunks s
    ∧ (sliceChunks s).length = (s.length + CHUNK_CHAR_LIMIT - 1) / CHUNK_CHAR_LIMIT
    ∧ (sliceChunks s).flatten = s
    ∧ (∀ c ∈ sliceChunks s, c.length ≤ CHUNK_CHAR_LIMIT)
    ∧ (∀ i, (sliceChunks s).getD i []
        = (s.drop (i * CHUNK_CHAR_LIMIT)).take CHUNK_CHAR_LIMIT) := by
  have hC : CHUNK_CHAR_LIMIT = 2000 := rfl
  have hne : s ≠ [] := by
    intro h
    rw [h] at h1
    simp at h1
  have hnotE : ¬ s.isEmpty = true := by simpa [List.isEmpty_iff] using hne
  have hmain : chunkText s = sliceChunks s := by
    unfold chunkText
    rw [if_neg hnotE, if_neg (by omega)]
    unfold splitIntoSentences
    rw [if_neg hnotE, h3]
    rw [show mergeShort [s] = [s] from rfl]
    simp only [packGo]
    rw [h2, if_neg hnotE, if_pos h1]
    simp
  exact ⟨hmain, sliceChunks_count s hne, flatten_sliceChunks s,
    sliceChunks_length_le s, sliceChunks_getD s⟩

/-- A 2501-character single sentence (no split boundaries, no whitespace). -/
def exLong : List Char := 'x' :: List.replicate 2500 'x'

theorem exLong_length : exLong.length = 2501 := by
  rw [exLong]
  simp only [List.length_cons, List.length_replicate]

theorem exLong_no_space : ∀ c ∈ exLong, isPySpace c = false := by
  intro c hc
  rcases List.mem_cons.mp hc with h | h
  · rw [h]; rfl
  · rw [List.eq_of_mem_replicate h]; rfl

theorem exLong_plain : ∀ c ∈ exLong, isSentEnd c = false := by
  intro c hc
  rcases List.mem_cons.mp hc with h | h
  · rw [h]; rfl
  · rw [List.eq_of_mem_replicate h]; rfl

theorem sentSplit_exLong : sentSplit exLong = [exLong] := by
  unfold sentSplit
  conv_lhs => rw [← List.append_nil exLong]
  rw [sentSplitGo_plain exLong exLong_plain []]
  rw [sentSplitGo]
  simp

/-- C8 witness: the 2501-character sentence is emitted as exactly 2 slices. -/
theorem c8_long_sentence_slices_witness :
    chunkText exLong = sliceChunks exLong ∧ (sliceChunks exLong).length = 2 := by
  have h := c8_long_sentence_slices exLong
    (by rw [exLong_length]; decide)
    (pyStrip_of_no_space exLong exLong_no_space)
    sentSplit_exLong
  refine ⟨h.1, ?_⟩
  have h2 := h.2.1
  rw [exLong_length] at h2
  simpa using h2

/-! ## Claim C5: retry schedule -/

/-- C5, counterexample.  The claim says the backoff delay applied before
attempt `n ≥ 2` equals `min(initialDelay * 2^(n-1), maxDelay)`.  In the
code two such delays are applied — `tenacity`'s `wait_exponential` sleep
and the explicit in-attempt `asyncio.sleep` — so before attempt 2 the
process sleeps 2 seconds twice: 4 seconds in total, not
`min(1 * 2^1, 10) = 2`. -/
theorem c5_backoff_delay_is_doubled :
    sleepsBefore (runChunk bAllFail) 2 = [2, 2]
    ∧ (sleepsBefore (runChunk bAllFail) 2).sum = 4
    ∧ min (INITIAL_RETRY_DELAY * 2 ^ (2 - 1)) MAX_RETRY_DELAY = 2
    ∧ (4 : Nat) ≠ 2 := by
  exact ⟨by decide, by decide, by decide, by decide⟩

/-- Closed-form unfolding of the three-attempt retry loop. -/
theorem runChunk_eq (b : Nat → AttemptBehavior) :
    runChunk b =
      if attemptFails (b 1) = false then
        ⟨true, attemptWrites (b 1), 1, []⟩
      else if attemptFails (b 2) = false then
        ⟨true, attemptWrites (b 1) ++ attemptWrites (b 2), 2, [(2, 2), (2, 2)]⟩
      else if attemptFails (b 3) = false then
        ⟨true, attemptWrites (b 1) ++ (attemptWrites (b 2) ++ attemptWrites (b 3)), 3,
          [(2, 2), (2, 2), (3, 4), (3, 4)]⟩
      else
        ⟨false, attemptWrites (b 1) ++ (attemptWrites (b 2) ++ attemptWrites (b 3)), 3,
          [(2, 2), (2, 2), (3, 4), (3, 4)]⟩ := by
  have hm2 : manualDelay 2 = 2 := by decide
  have hm3 : manualDelay 3 = 4 := by decide
  have ht1 : tenacityWait 1 = 2 := by decide
  have ht2 : tenacityWait 2 = 4 := by decide
  by_cases h1 : attemptFails (b 1) = false <;>
    by_cases h2 : attemptFails (b 2) = false <;>
      by_cases h3 : attemptFails (b 3) = false <;>
        simp [runChunk, runChunkFrom, MAX_RETRIES, h1, h2, h3, hm2, hm3, ht1, ht2]

/-- C5, amended.  Chunk synthesis makes at most 3 attempts; no backoff
delay is applied before the first attempt; before every later attempt
`n ≤` the number of attempts made, two backoff delays are applied — the
decorator's wait and the in-attempt sleep — each equal to
`min(initialDelay * 2^(n-1), maxDelay)`; and after the final attempt fails
the error propagates to the caller (`success = false` exactly when all
three attempts failed). -/
theorem c5_retry_schedule (b : Nat → AttemptBehavior) :
    (runChunk b).attempts ≤ MAX_RETRIES
    ∧ sleepsBefore (runChunk b) 1 = []
    ∧ (∀ n, 2 ≤ n → n ≤ (runChunk b).attempts →
        sleepsBefore (runChunk b) n =
          [min (INITIAL_RETRY_DELAY * 2 ^ (n - 1)) MAX_RETRY_DELAY,
           min (INITIAL_RETRY_DELAY * 2 ^ (n - 1)) MAX_RETRY_DELAY])
    ∧ ((runChunk b).success = false ↔
        attemptFails (b 1) = true ∧ attemptFails (b 2) = true
          ∧ attemptFails (b 3) = true)
    ∧ ((runChunk b).success = false → (runChunk b).attempts = MAX_RETRIES) := by
  rw [runChunk_eq b]
  split_ifs with h1 h2 h3
  · refine ⟨by simp [MAX_RETRIES], by simp [sleepsBefore], ?_, by simp [h1], by simp⟩
    intro n hn1 hn2
    simp at hn2
    omega
  · refine ⟨by simp [MAX_RETRIES], by simp [sleepsBefore], ?_, by simp [h1, h2], by simp⟩
    intro n hn1 hn2
    simp at hn2
    interval_cases n
    simp [sleepsBefore, INITIAL_RETRY_DELAY, MAX_RETRY_DELAY]
  · refine ⟨by simp [MAX_RETRIES], by simp [sleepsBefore], ?_, by simp [h1, h2, h3], by simp⟩
    intro n hn1 hn2
    simp at hn2
    interval_cases n
    · simp [sleepsBefore, INITIAL_RETRY_DELAY, MAX_RETRY_DELAY]
    · simp [sleepsBefore, INITIAL_RETRY_DELAY, MAX_RETRY_DELAY]
  · refine ⟨by simp [MAX_RETRIES], by simp [sleepsBefore], ?_, ?_, by simp [MAX_RETRIES]⟩
    · intro n hn1 hn2
      simp at hn2
      interval_cases n
      · simp [sleepsBefore, INITIAL_RETRY_DELAY, MAX_RETRY_DELAY]
      · simp [sleepsBefore, INITIAL_RETRY_DELAY, MAX_RETRY_DELAY]
    · simp only [Bool.not_eq_false] at h1 h2 h3
      simp [h1, h2, h3]

/-- C5 witness: the amended schedule at the always-failing behavior. -/
theorem c5_retry_schedule_witness :
    (runChunk bAllFail).attempts ≤ MAX_RETRIES
    ∧ sleepsBefore (runChunk bAllFail) 2 = [2, 2]
    ∧ (runChunk bAllFail).success = false := by
  refine ⟨(c5_retry_schedule bAllFail).1, ?_, ?_⟩
  · have h := (c5_retry_schedule bAllFail).2.2.1 2 (by decide) (by decide)
    simpa using h
  · exact (c5_retry_schedule bAllFail).2.2.2.1.mpr ⟨by decide, by decide, by decide⟩

/-! ## Claim C6: voice resolution -/

/-- C6.  `_voice_for_language` resolves `"HINDI"` (via the case-insensitive
pass) and `"hi"` (via the exact pass) to the Hindi voice, and resolves the
unknown language `"Klingon"` to the default English voice with a fallback
warning logged. -/
theorem c6_voice_resolution :
    voiceForLanguage "HINDI" = ("hi-IN-SwaraNeural", false)
    ∧ voiceForLanguage "hi" = ("hi-IN-SwaraNeural", false)
    ∧ voiceForLanguage "Klingon" = ("en-US-JennyNeural", true) := by
  exact ⟨by decide, by decide, by decide⟩

/-! ## Claim C9: empty text -/

/-- C9.  If the request's text is empty after trimming, `synthesize_text`
returns `None`, logs the skip, and leaves the filesystem untouched (no
file and no directory is created: the rejection happens before
`_build_audio_path`). -/
theorem c9_empty_text_rejected (root : FPath) (fs : FS) (req : Request)
    (oracle : Nat → Nat → AttemptBehavior)
    (h : (pyStrip req.text.toList).isEmpty = true) :
    synthesizeText root fs req oracle = ⟨.ok none, fs, [.skipEmpty]⟩ := by
  unfold synthesizeText
  rw [if_pos h]

/-- C9 witness: the whitespace-only request is rejected unchanged. -/
theorem c9_empty_text_rejected_witness :
    synthesizeText rootEx fsEmpty reqBlank orcOnce = ⟨.ok none, fsEmpty, [.skipEmpty]⟩ :=
  c9_empty_text_rejected rootEx fsEmpty reqBlank orcOnce (by decide)

/-! ## Claim C10: failure frame -/

/-- C10.  When `synthesize_text` fails after validation succeeded (nonempty
trimmed text but no artifact path returned), the lecture directory created
by `_build_audio_path` exists afterwards, every directory that existed
before still exists, and no file other than (possibly) the target file is
modified.  In the program the failure happens at the voice-resolution
`TypeError` before anything is written, so nothing at all is removed. -/
theorem c10_failure_frame (root : FPath) (fs : FS) (req : Request)
    (oracle : Nat → Nat → AttemptBehavior)
    (h1 : ¬ (pyStrip req.text.toList).isEmpty = true)
    (_h2 : ∀ p, (synthesizeText root fs req oracle).result ≠ .ok (some p)) :
    lectureDir root req ∈ (synthesizeText root fs req oracle).fs.dirs
    ∧ (∀ d ∈ fs.dirs, d ∈ (synthesizeText root fs req oracle).fs.dirs)
    ∧ (∀ p, p ≠ targetPath root req →
        getFile (synthesizeText root fs req oracle).fs p = getFile fs p) := by
  unfold synthesizeText
  rw [if_neg h1]
  refine ⟨?_, ?_, ?_⟩
  · refine mkdirParents_mem_self fs (lectureDir root req) ?_
    intro hnil
    have : (lectureDir root req).length = 0 := by rw [hnil]; rfl
    unfold lectureDir at this
    simp [List.length_append] at this
  · intro d hd
    exact mkdirParents_mem_mono fs _ d hd
  · intro p _
    unfold getFile
    rw [mkdirParents_files]

/-- C10 witness: concrete failing request with a pre-existing unrelated
file and directory, both untouched. -/
theorem c10_failure_frame_witness :
    lectureDir rootEx reqHello ∈ (synthesizeText rootEx fsEmpty reqHello orcOnce).fs.dirs := by
  have h := c10_failure_frame rootEx fsEmpty reqHello orcOnce (by decide)
    (by
      intro p hp
      have hres : (synthesizeText rootEx fsEmpty reqHello orcOnce).result
          = .error .typeError := by decide
      rw [hres] at hp
      exact Except.noConfusion hp)
  exact h.1

end EdinaiTTS
